import Mathlib

/-!
Verification development for the fsm-rs procedural-macro crate.

The crate parses a declarative state-machine description (Context, States,
Events, and a flat sequence of transition blocks) from a token stream and
generates Rust code: per-event modules with AfterExit resolution enums and
callback traits, plus a dispatch function on a Machine struct.

The shallow embedding below models:
  * proc-macro token trees (TokTree) and the syn-style recursive-descent
    parsers of src/fsm/machine_context.rs, states.rs, events.rs,
    initial_state.rs and transitions.rs;
  * the BTreeMap/BTreeSet grouping of transition pairs (sorted association
    lists over String, matching the Ord instance of Ident);
  * the heck 0.3 to_snake_case / to_camel_case identifier transformations;
  * the ToTokens code generators as structured values mirroring exactly the
    pieces each quote! block emits;
  * an operational model of the generated dispatch arm (pre-transition hook,
    exit hook, state assignment, entry hook).
Identifiers in the embedded grammar are ASCII words, as Rust identifiers are.
-/

namespace Fsm

/-- Delimiter of a proc-macro group token: parentheses, brackets or braces. -/
inductive Delim
  | paren
  | bracket
  | brace
deriving DecidableEq

/-- A proc-macro token tree: an identifier, one of the punctuation tokens the
grammar uses, or a delimited group holding a subtree list. -/
inductive TokTree
  | ident (s : String)
  | fatArrow
  | eqTok
  | semi
  | comma
  | group (d : Delim) (inner : List TokTree)

/-- Parse one identifier token, as Ident::parse does. -/
def parseIdent : List TokTree → Except String (String × List TokTree)
  | TokTree.ident s :: rest => Except.ok (s, rest)
  | _ => Except.error "expected identifier"

/-- Consume an equals-sign token. -/
def parseEqTok : List TokTree → Except String (List TokTree)
  | TokTree.eqTok :: rest => Except.ok rest
  | _ => Except.error "expected equals sign"

/-- Consume a semicolon token. -/
def parseSemiTok : List TokTree → Except String (List TokTree)
  | TokTree.semi :: rest => Except.ok rest
  | _ => Except.error "expected semicolon"

/-- Consume a fat-arrow token. -/
def parseFatArrowTok : List TokTree → Except String (List TokTree)
  | TokTree.fatArrow :: rest => Except.ok rest
  | _ => Except.error "expected fat arrow"

/-- Consume a group with the given delimiter and return its contents, as the
braced! / bracketed! / parenthesized! macros do. -/
def parseGroup : Delim → List TokTree → Except String (List TokTree × List TokTree)
  | d, TokTree.group d2 inner :: rest =>
    if d2 = d then Except.ok (inner, rest) else Except.error "expected delimited group"
  | _, _ => Except.error "expected delimited group"

/-- Fuelled loop behind parseTerminated. -/
def parseTerminatedAux {α : Type} (p : List TokTree → Except String (α × List TokTree)) :
    Nat → List TokTree → Except String (List α)
  | _, [] => Except.ok []
  | 0, _ => Except.error "parse loop fuel exhausted"
  | Nat.succ n, ts =>
    match p ts with
    | Except.error e => Except.error e
    | Except.ok (a, rest) =>
      match rest with
      | [] => Except.ok [a]
      | TokTree.comma :: rest2 =>
        match parseTerminatedAux p n rest2 with
        | Except.error e => Except.error e
        | Except.ok items => Except.ok (a :: items)
      | _ => Except.error "expected comma"

/-- Model of Punctuated::parse_terminated with comma separators: parse items
separated by commas until the stream is empty, allowing a trailing comma. -/
def parseTerminated {α : Type} (p : List TokTree → Except String (α × List TokTree))
    (ts : List TokTree) : Except String (List α) :=
  parseTerminatedAux p (ts.length + 1) ts

/-- The parsed Context section (src/fsm/machine_context.rs); it stores only
the declared context type. Types in the embedded grammar are single
identifiers, the shape every spec in the repository uses. -/
structure MachineContext where
  context_type : String
deriving DecidableEq

/-- MachineContext::parse: reads an identifier (stored as context_magic in the
source and never compared with anything), an equals sign, the type and a
semicolon. Note that, unlike the other section parsers, it performs no keyword
check on the leading identifier. -/
def MachineContext.parse (ts : List TokTree) :
    Except String (MachineContext × List TokTree) :=
  match parseIdent ts with
  | Except.error e => Except.error e
  | Except.ok (_context_magic, ts1) =>
    match parseEqTok ts1 with
    | Except.error e => Except.error e
    | Except.ok ts2 =>
      match parseIdent ts2 with
      | Except.error e => Except.error e
      | Except.ok (ty, ts3) =>
        match parseSemiTok ts3 with
        | Except.error e => Except.error e
        | Except.ok ts4 => Except.ok (MachineContext.mk ty, ts4)

/-- The parsed States section: the declared state names in declaration order
(States(Vec of State) in src/fsm/states.rs, each State holding one Ident). -/
structure States where
  names : List String
deriving DecidableEq

/-- States::parse: the literal keyword States, then a braced comma-separated
identifier list. The keyword mismatch case is an error. -/
def States.parse (ts : List TokTree) : Except String (States × List TokTree) :=
  match parseIdent ts with
  | Except.error e => Except.error e
  | Except.ok (block_name, ts1) =>
    if block_name = "States" then
      match parseGroup Delim.brace ts1 with
      | Except.error e => Except.error e
      | Except.ok (inner, ts2) =>
        match parseTerminated parseIdent inner with
        | Except.error e => Except.error e
        | Except.ok names => Except.ok (States.mk names, ts2)
    else Except.error "expected States block"

/-- The parsed Events section (src/fsm/events.rs). -/
structure Events where
  names : List String
deriving DecidableEq

/-- Events::parse: the literal keyword Events, then a braced comma-separated
identifier list. -/
def Events.parse (ts : List TokTree) : Except String (Events × List TokTree) :=
  match parseIdent ts with
  | Except.error e => Except.error e
  | Except.ok (block_name, ts1) =>
    if block_name = "Events" then
      match parseGroup Delim.brace ts1 with
      | Except.error e => Except.error e
      | Except.ok (inner, ts2) =>
        match parseTerminated parseIdent inner with
        | Except.error e => Except.error e
        | Except.ok names => Except.ok (Events.mk names, ts2)
    else Except.error "expected Events block"

/-- The parsed InitialState section (src/fsm/initial_state.rs). The Machine
parser never invokes it; it exists in the crate as a standalone element. -/
structure InitialState where
  name : String
deriving DecidableEq

/-- InitialState::parse: the literal keyword InitialState, then a
parenthesized single identifier. -/
def InitialState.parse (ts : List TokTree) :
    Except String (InitialState × List TokTree) :=
  match parseIdent ts with
  | Except.error e => Except.error e
  | Except.ok (magic_name, ts1) =>
    if magic_name = "InitialState" then
      match parseGroup Delim.paren ts1 with
      | Except.error e => Except.error e
      | Except.ok (inner, ts2) =>
        match parseIdent inner with
        | Except.error e => Except.error e
        | Except.ok (name, _) => Except.ok (InitialState.mk name, ts2)
    else Except.error "expected InitialState section"

/-- The generated constant declaration InitialState::to_tokens emits:
a constant named INIT_STATE equal to the named State variant. -/
structure InitStateConstDecl where
  constName : String
  stateName : String
deriving DecidableEq

/-- InitialState::to_tokens. No other part of the crate consumes it. -/
def InitialState.toTokens (i : InitialState) : InitStateConstDecl :=
  InitStateConstDecl.mk "INIT_STATE" i.name

/-- One from-to transition fact (TransitionPair in src/fsm/transitions.rs);
fields correspond to the from and to identifiers of the source struct. -/
structure TransitionPair where
  fromState : String
  toState : String
deriving DecidableEq

/-- TransitionPair::parse: an identifier, a fat arrow, an identifier. -/
def TransitionPair.parse (ts : List TokTree) :
    Except String (TransitionPair × List TokTree) :=
  match parseIdent ts with
  | Except.error e => Except.error e
  | Except.ok (f, ts1) =>
    match parseFatArrowTok ts1 with
    | Except.error e => Except.error e
    | Except.ok ts2 =>
      match parseIdent ts2 with
      | Except.error e => Except.error e
      | Except.ok (t, ts3) => Except.ok (TransitionPair.mk f t, ts3)

/-- Lexicographic comparison of character lists by code point, the order the
Ord instance of Ident induces (for UTF-8 text, byte order and code-point
order agree). -/
def chLt : List Char → List Char → Bool
  | [], [] => false
  | [], _ :: _ => true
  | _ :: _, [] => false
  | a :: as2, b :: bs2 =>
    if a.toNat < b.toNat then true
    else if b.toNat < a.toNat then false
    else chLt as2 bs2

/-- The strict lexicographic order on identifiers used by the BTreeMap and
BTreeSet containers of the grouping engine. -/
def identLt (a b : String) : Prop :=
  chLt a.data b.data = true

instance (a b : String) : Decidable (identLt a b) :=
  inferInstanceAs (Decidable (chLt a.data b.data = true))

/-- BTreeSet::insert on a strictly sorted list of identifiers: place the new
element at its ordered position, collapsing a duplicate. -/
def insertSorted (t : String) : List String → List String
  | [] => [t]
  | y :: ys =>
    if identLt t y then t :: y :: ys
    else if t = y then y :: ys
    else y :: insertSorted t ys

/-- One insertion step of the grouping loop in Transition::parse: BTreeMap
entry lookup keyed by the from state, inserting the to state into that key's
BTreeSet (creating a fresh singleton set for an absent key). The map is
realised as an association list strictly sorted by key, which is exactly the
iteration order BTreeMap provides. -/
def insertPair : List (String × List String) → String → String → List (String × List String)
  | [], f, t => [(f, [t])]
  | (k, v) :: rest, f, t =>
    if identLt f k then (f, [t]) :: (k, v) :: rest
    else if f = k then (k, insertSorted t v) :: rest
    else (k, v) :: insertPair rest f t

/-- The grouping loop of Transition::parse: fold every parsed pair into the
BTreeMap, in input order. -/
def groupPairs (prs : List TransitionPair) : List (String × List String) :=
  prs.foldl (fun tbl p => insertPair tbl p.fromState p.toState) []

/-- BTreeMap::get on the sorted association list model. -/
def lookupTable : List (String × List String) → String → Option (List String)
  | [], _ => none
  | (k, v) :: rest, f => if f = k then some v else lookupTable rest f

/-- Membership of a destination in the grouped table: the key is present and
its destination set holds the value. -/
def memTable (tbl : List (String × List String)) (f t : String) : Prop :=
  ∃ tos, lookupTable tbl f = some tos ∧ t ∈ tos

/-- Well-formedness the BTreeMap/BTreeSet representation guarantees: keys are
strictly increasing and every destination set is strictly sorted. -/
def tableWF (tbl : List (String × List String)) : Prop :=
  List.Pairwise (fun p q => identLt p.1 q.1) tbl ∧ ∀ p ∈ tbl, List.Sorted identLt p.2

/-- A parsed transition block (Transition in src/fsm/transitions.rs): the
event identifier, the grouped pairs, and the trailing brace block captured
verbatim as an opaque token list. -/
structure Transition where
  event_name : String
  pairs : List (String × List String)
  block : List TokTree

/-- Transition::parse: event identifier, a bracketed comma-separated list of
from-to pairs grouped through the BTreeMap loop, then the code block parsed
as an ExprBlock (modelled as capturing one brace-delimited group). -/
def Transition.parse (ts : List TokTree) :
    Except String (Transition × List TokTree) :=
  match parseIdent ts with
  | Except.error e => Except.error e
  | Except.ok (event_name, ts1) =>
    match parseGroup Delim.bracket ts1 with
    | Except.error e => Except.error e
    | Except.ok (inner, ts2) =>
      match parseTerminated TransitionPair.parse inner with
      | Except.error e => Except.error e
      | Except.ok prs =>
        match parseGroup Delim.brace ts2 with
        | Except.error e => Except.error e
        | Except.ok (blk, ts3) =>
          Except.ok (Transition.mk event_name (groupPairs prs) blk, ts3)

/-- The list of transition blocks (Transitions in src/fsm/transitions.rs). -/
structure Transitions where
  list : List Transition

/-- Fuelled loop behind Transitions::parse. -/
def Transitions.parseAux : Nat → List TokTree → Except String (List Transition)
  | _, [] => Except.ok []
  | 0, _ => Except.error "parse loop fuel exhausted"
  | Nat.succ n, ts =>
    match Transition.parse ts with
    | Except.error e => Except.error e
    | Except.ok (tr, rest) =>
      match Transitions.parseAux n rest with
      | Except.error e => Except.error e
      | Except.ok trs => Except.ok (tr :: trs)

/-- Transitions::parse: repeat Transition::parse until the input is empty. -/
def Transitions.parse (ts : List TokTree) : Except String Transitions :=
  match Transitions.parseAux (ts.length + 1) ts with
  | Except.error e => Except.error e
  | Except.ok trs => Except.ok (Transitions.mk trs)

/-- The root AST node (Machine in src/fsm/machine.rs), with the source's
field order: context, events, states, transitions. It holds no initial-state
component. -/
structure Machine where
  machine_context : MachineContext
  events : Events
  states : States
  transitions : Transitions

/-- Machine::parse: a Context declaration, a States block, an Events block,
then the flat transition blocks until the input ends. The parser consumes no
InitialState section; an input containing one fails inside Events::parse. -/
def Machine.parse (ts : List TokTree) : Except String Machine :=
  match MachineContext.parse ts with
  | Except.error e => Except.error e
  | Except.ok (machine_context, ts1) =>
    match States.parse ts1 with
    | Except.error e => Except.error e
    | Except.ok (states, ts2) =>
      match Events.parse ts2 with
      | Except.error e => Except.error e
      | Except.ok (events, ts3) =>
        match Transitions.parse ts3 with
        | Except.error e => Except.error e
        | Except.ok transitions =>
          Except.ok (Machine.mk machine_context events states transitions)

/-- Scanner mode of the heck 0.3 word-splitting transform: whether the last
cased character seen in the current segment was lowercase or uppercase, or
whether the segment has no cased character yet. -/
inductive WordMode
  | boundary
  | lower
  | upper
deriving DecidableEq

/-- The segment-splitting loop of the heck 0.3 transform function, specialised
to one word (a Rust identifier is a single word for the segmenter, underscores
included). It drops underscores, ends a segment before an uppercase character
that follows a lowercase one and before an underscore, and ends a segment
between an uppercase run and an uppercase-lowercase pair. -/
def splitCore : WordMode → List Char → List Char → List (List Char)
  | _, _, [] => []
  | mode, acc, c :: rest =>
    if c = '_' then splitCore mode acc rest
    else
      match rest with
      | [] => [acc ++ [c]]
      | next :: _ =>
        let nextMode :=
          if c.isLower then WordMode.lower
          else if c.isUpper then WordMode.upper
          else mode
        if next = '_' ∨ (nextMode = WordMode.lower ∧ next.isUpper) then
          (acc ++ [c]) :: splitCore WordMode.boundary [] rest
        else if mode = WordMode.upper ∧ c.isUpper ∧ next.isLower then
          acc :: splitCore WordMode.boundary [c] rest
        else
          splitCore nextMode (acc ++ [c]) rest

/-- Split an identifier into its heck word segments. -/
def splitWords (s : String) : List (List Char) :=
  splitCore WordMode.boundary [] s.data

/-- heck 0.3 to_snake_case: lowercase every segment and join with
underscores. -/
def snakeCase (s : String) : String :=
  String.intercalate "_" ((splitWords s).map (fun w => String.mk (w.map Char.toLower)))

/-- heck 0.3 capitalize: uppercase the first character of a segment and
lowercase the remainder. -/
def capitalizeWord : List Char → String
  | [] => ""
  | c :: cs => String.mk (c.toUpper :: cs.map Char.toLower)

/-- heck 0.3 to_camel_case (upper camel case): capitalize every segment and
concatenate. -/
def camelCase (s : String) : String :=
  String.join ((splitWords s).map capitalizeWord)

/-- Name of the generated resolution enum for a from state, as built by
format_ident in AfterExitEnums, Callbacks and AfterExitCase. -/
def afterExitName (f : String) : String :=
  "AfterExit" ++ camelCase f

/-- Name of the generated entry hook for a from-to pair. -/
def entryFnName (f t : String) : String :=
  "entry_" ++ snakeCase t ++ "_from_" ++ snakeCase f

/-- Name of the generated exit hook for a from state. -/
def exitFnName (f : String) : String :=
  "exit_" ++ snakeCase f

/-- Name of the generated pre-transition hook for an event. -/
def onEventName (e : String) : String :=
  "on_" ++ snakeCase e

/-- The resolution enum AfterExitEnums::to_tokens emits for one from state:
its derived name and its variants, in the set's sorted iteration order. -/
structure AfterExitEnums where
  enumName : String
  variants : List String
deriving DecidableEq

/-- Build the AfterExitEnums output for a from state and destination set. -/
def mkAfterExitEnums (f : String) (tos : List String) : AfterExitEnums :=
  AfterExitEnums.mk (afterExitName f) tos

/-- The callback signatures Callbacks::to_tokens emits for one from state:
the exit hook returning the resolution enum, and one entry hook per
destination, in the set's sorted iteration order. -/
structure Callbacks where
  exitFn : String
  exitRetType : String
  entryFns : List String
deriving DecidableEq

/-- Build the Callbacks output for a from state and destination set. -/
def mkCallbacks (f : String) (tos : List String) : Callbacks :=
  Callbacks.mk (exitFnName f) (afterExitName f) (tos.map (fun t => entryFnName f t))

/-- The per-event module Transition::to_tokens emits: the snake-cased module
name, the resolution enums, the pre-transition hook signature, and the
callback signatures, each list following the grouped map's key order. -/
structure TransitionTokens where
  modName : String
  afterEnums : List AfterExitEnums
  onEventFn : String
  callbacks : List Callbacks
deriving DecidableEq

/-- Transition::to_tokens. The stored code block is not consulted. The
source snake-cases the event name for the module identifier and then
snake-cases that again for the hook name. -/
def Transition.toTokens (tr : Transition) : TransitionTokens :=
  let en := snakeCase tr.event_name
  TransitionTokens.mk
    en
    (tr.pairs.map (fun p => mkAfterExitEnums p.1 p.2))
    (onEventName en)
    (tr.pairs.map (fun p => mkCallbacks p.1 p.2))

/-- One generated dispatch arm of the resolution match (AfterExitCase): the
matched enum variant, the state assigned to current_state, and the entry hook
invoked after the assignment. -/
structure AfterExitCase where
  enumName : String
  variant : String
  assignedState : String
  entryCall : String
deriving DecidableEq

/-- AfterExitCase::to_tokens for one from-to pair. -/
def mkAfterExitCase (f t : String) : AfterExitCase :=
  AfterExitCase.mk (afterExitName f) t t (entryFnName f t)

/-- One generated arm of the current-state match (StateCase): the from state,
the exit hook it calls, and the resolution arms, one per destination in the
set's sorted iteration order. -/
structure StateCase where
  fromState : String
  exitCall : String
  arms : List AfterExitCase
deriving DecidableEq

/-- StateCase::to_tokens for one from state and destination set. -/
def mkStateCase (f : String) (tos : List String) : StateCase :=
  StateCase.mk f (exitFnName f) (tos.map (fun t => mkAfterExitCase f t))

/-- One generated arm of the event match (EventCase): the event variant, the
pre-transition hook call guarding it, and the state arms. The EventCase value
in the source also carries the code block, which its to_tokens ignores. -/
structure EventCase where
  eventName : String
  onCall : String
  stateCases : List StateCase
deriving DecidableEq

/-- EventCase::to_tokens built from a parsed transition, as
Transitions::to_tokens does. -/
def mkEventCase (tr : Transition) : EventCase :=
  EventCase.mk
    tr.event_name
    (onEventName tr.event_name)
    (tr.pairs.map (fun p => mkStateCase p.1 p.2))

/-- Everything Transitions::to_tokens emits: each transition's module
followed by the dispatch function's event arms. -/
structure TransitionsTokens where
  mods : List TransitionTokens
  eventCases : List EventCase
deriving DecidableEq

/-- Transitions::to_tokens. -/
def Transitions.toTokens (trs : Transitions) : TransitionsTokens :=
  TransitionsTokens.mk (trs.list.map Transition.toTokens) (trs.list.map mkEventCase)

/-- The expression the generated constructor assigns to current_state. The
source emits the default-value call of the State type; the crate's own test
expects the INIT_STATE constant of the declared initial state instead. -/
inductive CurrentStateInit
  | defaultExpr
  | initStateConst (name : String)
deriving DecidableEq

/-- Everything Machine::to_tokens emits: the State enum variants, the Event
enum variants, the Machine struct's context type, whether the constructor
default-initializes the context, the constructor's current-state expression,
and the dispatch body. The source calls a to_event_fn_tokens method that the
transitions module does not define; its ToTokens implementation, which emits
exactly the per-event modules and dispatch arms, stands in for it here. -/
structure MachineTokens where
  stateVariants : List String
  eventVariants : List String
  contextType : String
  contextInitDefault : Bool
  initCurrentState : CurrentStateInit
  transitionsTokens : TransitionsTokens
deriving DecidableEq

/-- Machine::to_tokens. -/
def Machine.toTokens (m : Machine) : MachineTokens :=
  MachineTokens.mk
    m.states.names
    m.events.names
    m.machine_context.context_type
    true
    CurrentStateInit.defaultExpr
    (Transitions.toTokens m.transitions)

/-- The full fsm macro pipeline of src/lib.rs: parse the Machine, then render
it. -/
def fsm (ts : List TokTree) : Except String MachineTokens :=
  match Machine.parse ts with
  | Except.error e => Except.error e
  | Except.ok m => Except.ok (Machine.toTokens m)

/-- Runtime model of the generated Machine struct: the context value and the
current-state field. States are identified by their variant name. -/
structure RtMachine (C : Type) where
  context : C
  current_state : String
deriving DecidableEq

/-- The generated read-only state accessor. -/
def stateAccessor {C : Type} (m : RtMachine C) : String :=
  m.current_state

/-- A record of one hook invocation performed by the generated dispatch
code, in invocation order. -/
inductive HookCall
  | pre (name : String)
  | exitHook (name : String)
  | entry (name : String)
deriving DecidableEq

/-- Operational model of one generated event arm (EventCase, StateCase and
AfterExitCase): call the pre-transition hook and return its failure
unchanged; otherwise branch on the current state over the grouped table,
call that state's exit hook, propagate its failure unchanged, and on success
assign the returned destination to current_state, call the matching entry
hook, and report success. The two none results are the situations the
generated source makes unrepresentable: a current state without an arm
(non-exhaustive match) and an exit result outside the resolution enum. -/
def dispatchEvent {C : Type} (ev : String) (pairs : List (String × List String))
    (pre : RtMachine C → Except String Unit)
    (exitH : RtMachine C → Except String String)
    (m : RtMachine C) :
    Option (Except String Bool × RtMachine C × List HookCall) :=
  match pre m with
  | Except.error e => some (Except.error e, m, [HookCall.pre (onEventName ev)])
  | Except.ok _ =>
    match lookupTable pairs m.current_state with
    | none => none
    | some tos =>
      match exitH m with
      | Except.error e =>
        some (Except.error e, m,
          [HookCall.pre (onEventName ev), HookCall.exitHook (exitFnName m.current_state)])
      | Except.ok d =>
        if d ∈ tos then
          some (Except.ok true, RtMachine.mk m.context d,
            [HookCall.pre (onEventName ev), HookCall.exitHook (exitFnName m.current_state),
             HookCall.entry (entryFnName m.current_state d)])
        else none

/-- Token stream of the concrete specification
Context = FSM; States brace Open, Close; Events brace Turn; and the
transition block Turn bracket Open to Close, Close to Open, Close to Close
with an empty code block — the scenario of the specification document. -/
def sampleSpec : List TokTree :=
  [TokTree.ident "Context", TokTree.eqTok, TokTree.ident "FSM", TokTree.semi,
   TokTree.ident "States",
   TokTree.group Delim.brace
     [TokTree.ident "Open", TokTree.comma, TokTree.ident "Close"],
   TokTree.ident "Events", TokTree.group Delim.brace [TokTree.ident "Turn"],
   TokTree.ident "Turn",
   TokTree.group Delim.bracket
     [TokTree.ident "Open", TokTree.fatArrow, TokTree.ident "Close", TokTree.comma,
      TokTree.ident "Close", TokTree.fatArrow, TokTree.ident "Open", TokTree.comma,
      TokTree.ident "Close", TokTree.fatArrow, TokTree.ident "Close"],
   TokTree.group Delim.brace []]

/-- The same specification with an InitialState section inserted between the
States block and the Events block, the position the grammar description and
the Machine parser's own doc example give it. -/
def sampleSpecWithInitialState : List TokTree :=
  [TokTree.ident "Context", TokTree.eqTok, TokTree.ident "FSM", TokTree.semi,
   TokTree.ident "States",
   TokTree.group Delim.brace
     [TokTree.ident "Open", TokTree.comma, TokTree.ident "Close"],
   TokTree.ident "InitialState", TokTree.group Delim.paren [TokTree.ident "Open"],
   TokTree.ident "Events", TokTree.group Delim.brace [TokTree.ident "Turn"],
   TokTree.ident "Turn",
   TokTree.group Delim.bracket
     [TokTree.ident "Open", TokTree.fatArrow, TokTree.ident "Close", TokTree.comma,
      TokTree.ident "Close", TokTree.fatArrow, TokTree.ident "Open", TokTree.comma,
      TokTree.ident "Close", TokTree.fatArrow, TokTree.ident "Close"],
   TokTree.group Delim.brace []]

/-- Characters with the same code point are equal. -/
theorem char_eq_of_toNat_eq {a b : Char} (h : a.toNat = b.toNat) : a = b :=
  Char.eq_of_val_eq (UInt32.ext h)

/-- The lexicographic comparison is irreflexive. -/
theorem chLt_irrefl : ∀ l : List Char, chLt l l = false := by
  intro l
  induction l with
  | nil => rfl
  | cons c cs ih =>
    simp only [chLt]
    rw [if_neg (Nat.lt_irrefl _), if_neg (Nat.lt_irrefl _)]
    exact ih

/-- The lexicographic comparison is transitive. -/
theorem chLt_trans : ∀ as2 bs2 cs2 : List Char,
    chLt as2 bs2 = true → chLt bs2 cs2 = true → chLt as2 cs2 = true := by
  intro as2
  induction as2 with
  | nil =>
    intro bs2 cs2 h1 h2
    cases bs2 with
    | nil => simp [chLt] at h1
    | cons b bs3 =>
      cases cs2 with
      | nil => simp [chLt] at h2
      | cons c cs3 => simp [chLt]
  | cons a as3 ih =>
    intro bs2 cs2 h1 h2
    cases bs2 with
    | nil => simp [chLt] at h1
    | cons b bs3 =>
      cases cs2 with
      | nil => simp [chLt] at h2
      | cons c cs3 =>
        simp only [chLt] at h1 h2 ⊢
        by_cases hab : a.toNat < b.toNat
        · by_cases hbc : b.toNat < c.toNat
          · rw [if_pos (Nat.lt_trans hab hbc)]
          · rw [if_neg hbc] at h2
            by_cases hcb : c.toNat < b.toNat
            · rw [if_pos hcb] at h2
              exact absurd h2 (by simp)
            · have hbceq : b.toNat = c.toNat :=
                Nat.le_antisymm (Nat.le_of_not_lt hcb) (Nat.le_of_not_lt hbc)
              rw [if_pos (hbceq ▸ hab)]
        · by_cases hba : b.toNat < a.toNat
          · rw [if_neg hab, if_pos hba] at h1
            exact absurd h1 (by simp)
          · rw [if_neg hab, if_neg hba] at h1
            have habeq : a.toNat = b.toNat :=
              Nat.le_antisymm (Nat.le_of_not_lt hba) (Nat.le_of_not_lt hab)
            by_cases hbc : b.toNat < c.toNat
            · rw [if_pos (habeq ▸ hbc)]
            · rw [if_neg hbc] at h2
              by_cases hcb : c.toNat < b.toNat
              · rw [if_pos hcb] at h2
                exact absurd h2 (by simp)
              · rw [if_neg hcb] at h2
                have hac : ¬ a.toNat < c.toNat := by rw [habeq]; exact hbc
                have hca : ¬ c.toNat < a.toNat := by rw [habeq]; exact hcb
                rw [if_neg hac, if_neg hca]
                exact ih bs3 cs3 h1 h2

/-- The lexicographic comparison is connex: distinct lists compare one way
or the other. -/
theorem chLt_of_not_of_ne : ∀ as2 bs2 : List Char,
    chLt as2 bs2 = false → as2 ≠ bs2 → chLt bs2 as2 = true := by
  intro as2
  induction as2 with
  | nil =>
    intro bs2 h1 h2
    cases bs2 with
    | nil => exact absurd rfl h2
    | cons b bs3 => simp [chLt] at h1
  | cons a as3 ih =>
    intro bs2 h1 h2
    cases bs2 with
    | nil => simp [chLt]
    | cons b bs3 =>
      simp only [chLt] at h1 ⊢
      by_cases hab : a.toNat < b.toNat
      · rw [if_pos hab] at h1
        exact absurd h1 (by simp)
      · by_cases hba : b.toNat < a.toNat
        · rw [if_pos hba]
        · rw [if_neg hab, if_neg hba] at h1
          rw [if_neg hba, if_neg hab]
          have habeq : a.toNat = b.toNat :=
            Nat.le_antisymm (Nat.le_of_not_lt hba) (Nat.le_of_not_lt hab)
          have hch : a = b := char_eq_of_toNat_eq habeq
          refine ih bs3 h1 ?_
          intro hEq
          exact h2 (by rw [hch, hEq])

/-- The identifier order is irreflexive. -/
theorem identLt_irrefl (a : String) : ¬ identLt a a := by
  unfold identLt
  rw [chLt_irrefl]
  simp

/-- The identifier order is transitive. -/
theorem identLt_trans {a b c : String} (h1 : identLt a b) (h2 : identLt b c) :
    identLt a c :=
  chLt_trans a.data b.data c.data h1 h2

/-- Two identifiers that are distinct and not ordered one way are ordered the
other way. -/
theorem identLt_of_not_of_ne {a b : String} (h1 : ¬ identLt a b) (h2 : a ≠ b) :
    identLt b a := by
  unfold identLt at h1 ⊢
  refine chLt_of_not_of_ne a.data b.data ?_ ?_
  · cases hc : chLt a.data b.data
    · rfl
    · exact absurd hc h1
  · intro hd
    exact h2 (String.toList_inj.mp hd)

/-- Membership after a sorted-set insertion: the new element, or an old one. -/
theorem mem_insertSorted (t x : String) (v : List String) :
    x ∈ insertSorted t v ↔ x = t ∨ x ∈ v := by
  induction v with
  | nil => simp [insertSorted]
  | cons y ys ih =>
    by_cases h1 : identLt t y
    · simp only [insertSorted]
      rw [if_pos h1]
      simp only [List.mem_cons]
    · by_cases h2 : t = y
      · simp only [insertSorted]
        rw [if_neg h1, if_pos h2]
        simp only [List.mem_cons, h2]
        tauto
      · simp only [insertSorted]
        rw [if_neg h1, if_neg h2]
        simp only [List.mem_cons, ih]
        tauto

/-- Sorted-set insertion preserves strict sortedness. -/
theorem sorted_insertSorted (t : String) (v : List String)
    (h : List.Sorted identLt v) : List.Sorted identLt (insertSorted t v) := by
  induction v with
  | nil => simp [insertSorted]
  | cons y ys ih =>
    rw [List.sorted_cons] at h
    obtain ⟨hy, hys⟩ := h
    by_cases h1 : identLt t y
    · simp only [insertSorted]
      rw [if_pos h1]
      rw [List.sorted_cons]
      refine ⟨?_, ?_⟩
      · intro b hb
        rcases List.mem_cons.mp hb with rfl | hb2
        · exact h1
        · exact identLt_trans h1 (hy b hb2)
      · rw [List.sorted_cons]
        exact ⟨hy, hys⟩
    · by_cases h2 : t = y
      · simp only [insertSorted]
        rw [if_neg h1, if_pos h2]
        rw [List.sorted_cons]
        exact ⟨hy, hys⟩
      · have hyt : identLt y t := identLt_of_not_of_ne h1 h2
        simp only [insertSorted]
        rw [if_neg h1, if_neg h2]
        rw [List.sorted_cons]
        refine ⟨?_, ih hys⟩
        intro b hb
        rcases (mem_insertSorted t b ys).mp hb with rfl | hb2
        · exact hyt
        · exact hy b hb2

/-- A key below every key of the table is absent from it. -/
theorem lookupTable_eq_none (tbl : List (String × List String)) (f : String)
    (h : ∀ p ∈ tbl, p.1 ≠ f) : lookupTable tbl f = none := by
  induction tbl with
  | nil => rfl
  | cons q rest ih =>
    obtain ⟨k, v⟩ := q
    have hk : k ≠ f := h (k, v) (List.mem_cons_self _ _)
    simp only [lookupTable, if_neg (Ne.symm hk)]
    exact ih (fun p hp => h p (List.mem_cons_of_mem _ hp))

/-- A successful lookup returns an entry of the table. -/
theorem lookupTable_mem (tbl : List (String × List String)) (f : String)
    (tos : List String) (h : lookupTable tbl f = some tos) : (f, tos) ∈ tbl := by
  induction tbl with
  | nil => simp [lookupTable] at h
  | cons q rest ih =>
    obtain ⟨k, v⟩ := q
    simp only [lookupTable] at h
    by_cases hf : f = k
    · rw [if_pos hf] at h
      have hv : v = tos := by injection h
      subst hv
      rw [hf]
      exact List.mem_cons_self _ _
    · rw [if_neg hf] at h
      exact List.mem_cons_of_mem _ (ih h)

/-- Dropping the head of a well-formed table keeps it well formed. -/
theorem tableWF_tail {q : String × List String} {rest : List (String × List String)}
    (h : tableWF (q :: rest)) : tableWF rest := by
  obtain ⟨hk, hv⟩ := h
  exact ⟨(List.pairwise_cons.mp hk).2, fun p hp => hv p (List.mem_cons_of_mem _ hp)⟩

/-- Every entry of the table after an insertion carries the inserted key or
was already present. -/
theorem insertPair_entries (f t : String) :
    ∀ tbl, ∀ p ∈ insertPair tbl f t, p.1 = f ∨ p ∈ tbl := by
  intro tbl
  induction tbl with
  | nil =>
    intro p hp
    rcases List.mem_singleton.mp hp with rfl
    exact Or.inl rfl
  | cons q rest ih =>
    obtain ⟨k, v⟩ := q
    intro p hp
    simp only [insertPair] at hp
    by_cases h1 : identLt f k
    · rw [if_pos h1] at hp
      rcases List.mem_cons.mp hp with rfl | hp2
      · exact Or.inl rfl
      · exact Or.inr hp2
    · by_cases h2 : f = k
      · rw [if_neg h1, if_pos h2] at hp
        rcases List.mem_cons.mp hp with rfl | hp2
        · exact Or.inl h2.symm
        · exact Or.inr (List.mem_cons_of_mem _ hp2)
      · rw [if_neg h1, if_neg h2] at hp
        rcases List.mem_cons.mp hp with rfl | hp2
        · exact Or.inr (List.mem_cons_self _ _)
        · rcases ih p hp2 with hpf | hpold
          · exact Or.inl hpf
          · exact Or.inr (List.mem_cons_of_mem _ hpold)

/-- The BTreeMap insertion step preserves well-formedness. -/
theorem tableWF_insertPair (f t : String) :
    ∀ tbl, tableWF tbl → tableWF (insertPair tbl f t) := by
  intro tbl
  induction tbl with
  | nil =>
    intro _
    refine ⟨List.pairwise_singleton _ _, ?_⟩
    intro p hp
    rcases List.mem_singleton.mp hp with rfl
    simp
  | cons q rest ih =>
    intro h
    obtain ⟨k, v⟩ := q
    obtain ⟨hk, hv⟩ := h
    obtain ⟨hkrest, hkpair⟩ := List.pairwise_cons.mp hk
    simp only [insertPair]
    by_cases h1 : identLt f k
    · rw [if_pos h1]
      refine ⟨?_, ?_⟩
      · rw [List.pairwise_cons]
        refine ⟨?_, hk⟩
        intro p hp
        rcases List.mem_cons.mp hp with rfl | hp2
        · exact h1
        · exact identLt_trans h1 (hkrest p hp2)
      · intro p hp
        rcases List.mem_cons.mp hp with rfl | hp2
        · simp
        · exact hv p hp2
    · by_cases h2 : f = k
      · rw [if_neg h1, if_pos h2]
        refine ⟨?_, ?_⟩
        · rw [List.pairwise_cons]
          exact ⟨hkrest, hkpair⟩
        · intro p hp
          rcases List.mem_cons.mp hp with rfl | hp2
          · exact sorted_insertSorted t v (hv (k, v) (List.mem_cons_self _ _))
          · exact hv p (List.mem_cons_of_mem _ hp2)
      · have hkf : identLt k f := identLt_of_not_of_ne h1 h2
        rw [if_neg h1, if_neg h2]
        obtain ⟨ihk, ihv⟩ := ih ⟨hkpair, fun p hp => hv p (List.mem_cons_of_mem _ hp)⟩
        refine ⟨?_, ?_⟩
        · rw [List.pairwise_cons]
          refine ⟨?_, ihk⟩
          intro p hp
          rcases insertPair_entries f t rest p hp with hpf | hpold
          · rw [hpf]; exact hkf
          · exact hkrest p hpold
        · intro p hp
          rcases List.mem_cons.mp hp with rfl | hp2
          · exact hv (k, v) (List.mem_cons_self _ _)
          · exact ihv p hp2

/-- The empty table has no members. -/
theorem memTable_nil (f t : String) : memTable [] f t ↔ False := by
  simp [memTable, lookupTable]

/-- Unfolding table membership one entry at a time. -/
theorem memTable_cons (k : String) (v : List String)
    (rest : List (String × List String)) (f t : String) :
    memTable ((k, v) :: rest) f t ↔ (f = k ∧ t ∈ v) ∨ (f ≠ k ∧ memTable rest f t) := by
  unfold memTable
  simp only [lookupTable]
  by_cases hf : f = k
  · constructor
    · rintro ⟨tos, htos, ht⟩
      rw [if_pos hf] at htos
      have hvt : v = tos := by injection htos
      subst hvt
      exact Or.inl ⟨hf, ht⟩
    · rintro (⟨_, ht⟩ | ⟨hne, _⟩)
      · exact ⟨v, by rw [if_pos hf], ht⟩
      · exact absurd hf hne
  · constructor
    · rintro ⟨tos, htos, ht⟩
      rw [if_neg hf] at htos
      exact Or.inr ⟨hf, tos, htos, ht⟩
    · rintro (⟨hff, _⟩ | ⟨_, tos, htos, ht⟩)
      · exact absurd hff hf
      · exact ⟨tos, by rw [if_neg hf]; exact htos, ht⟩

/-- Membership after a BTreeMap insertion step on a well-formed table: the
inserted from-to pair, or a pair already recorded. -/
theorem memTable_insertPair (f t f' t' : String) :
    ∀ tbl, tableWF tbl →
      (memTable (insertPair tbl f t) f' t' ↔ (f' = f ∧ t' = t) ∨ memTable tbl f' t') := by
  intro tbl
  induction tbl with
  | nil =>
    intro _
    simp only [insertPair, memTable_cons, memTable_nil, List.mem_singleton]
    tauto
  | cons q rest ih =>
    intro h
    obtain ⟨k, v⟩ := q
    have hrest : tableWF rest := tableWF_tail h
    obtain ⟨hk, hv⟩ := h
    obtain ⟨hkrest, hkpair⟩ := List.pairwise_cons.mp hk
    simp only [insertPair]
    by_cases h1 : identLt f k
    · rw [if_pos h1]
      rw [memTable_cons, memTable_cons]
      simp only [List.mem_singleton]
      constructor
      · rintro (⟨hff, ht⟩ | ⟨_, hm⟩)
        · exact Or.inl ⟨hff, ht⟩
        · exact Or.inr hm
      · rintro (⟨hff, ht⟩ | hm)
        · exact Or.inl ⟨hff, ht⟩
        · refine Or.inr ⟨?_, hm⟩
          rcases hm with ⟨hfk, _⟩ | ⟨_, hm2⟩
          · intro hff
            rw [hff] at hfk
            rw [hfk] at h1
            exact identLt_irrefl k h1
          · obtain ⟨tos, hlook, _⟩ := hm2
            have hmem := lookupTable_mem _ _ _ hlook
            have hklt := hkrest (f', tos) hmem
            intro hff
            rw [hff] at hklt
            exact identLt_irrefl f (identLt_trans h1 hklt)
    · by_cases h2 : f = k
      · rw [if_neg h1, if_pos h2]
        rw [memTable_cons, memTable_cons]
        simp only [mem_insertSorted]
        subst h2
        tauto
      · rw [if_neg h1, if_neg h2]
        rw [memTable_cons, memTable_cons]
        rw [ih hrest]
        constructor
        · rintro (⟨hfk, ht⟩ | ⟨hne, ⟨hff, htt⟩ | hm⟩)
          · exact Or.inr (Or.inl ⟨hfk, ht⟩)
          · exact Or.inl ⟨hff, htt⟩
          · exact Or.inr (Or.inr ⟨hne, hm⟩)
        · rintro (⟨hff, htt⟩ | ⟨hfk, ht⟩ | ⟨hne, hm⟩)
          · refine Or.inr ⟨?_, Or.inl ⟨hff, htt⟩⟩
            rw [hff]
            exact h2
          · exact Or.inl ⟨hfk, ht⟩
          · exact Or.inr ⟨hne, Or.inr hm⟩

/-- The grouping fold preserves table well-formedness. -/
theorem tableWF_groupFold :
    ∀ (prs : List TransitionPair) (tbl), tableWF tbl →
      tableWF (prs.foldl (fun tbl p => insertPair tbl p.fromState p.toState) tbl) := by
  intro prs
  induction prs with
  | nil => intro tbl h; exact h
  | cons p ps ih =>
    intro tbl h
    simp only [List.foldl_cons]
    exact ih _ (tableWF_insertPair _ _ _ h)

/-- The grouped transition table is well formed: strictly sorted keys,
strictly sorted destination sets. -/
theorem tableWF_groupPairs (prs : List TransitionPair) : tableWF (groupPairs prs) :=
  tableWF_groupFold prs [] ⟨List.Pairwise.nil, by simp⟩

/-- Membership in the grouping fold: a pair from the new input or one
already in the accumulator. -/
theorem memTable_groupFold (f t : String) :
    ∀ (prs : List TransitionPair) (tbl), tableWF tbl →
      (memTable (prs.foldl (fun tbl p => insertPair tbl p.fromState p.toState) tbl) f t
        ↔ memTable tbl f t ∨ TransitionPair.mk f t ∈ prs) := by
  intro prs
  induction prs with
  | nil =>
    intro tbl _
    simp
  | cons p ps ih =>
    intro tbl h
    obtain ⟨pf, pt⟩ := p
    simp only [List.foldl_cons]
    rw [ih _ (tableWF_insertPair _ _ _ h)]
    rw [memTable_insertPair _ _ _ _ _ h]
    simp only [List.mem_cons, TransitionPair.mk.injEq]
    tauto

/-- Grouping correctness, membership direction: a destination is recorded
under a from state exactly when the input pair list contains that pair. -/
theorem memTable_groupPairs (f t : String) (prs : List TransitionPair) :
    memTable (groupPairs prs) f t ↔ TransitionPair.mk f t ∈ prs := by
  rw [groupPairs, memTable_groupFold f t prs [] ⟨List.Pairwise.nil, by simp⟩]
  rw [memTable_nil]
  tauto

/-- Every destination set of the grouped table is strictly sorted by the
lexicographic identifier order. -/
theorem sorted_lookup_groupPairs (prs : List TransitionPair) (f : String)
    (tos : List String) (h : lookupTable (groupPairs prs) f = some tos) :
    List.Sorted identLt tos :=
  (tableWF_groupPairs prs).2 (f, tos) (lookupTable_mem _ _ _ h)

/-- C1: for every parsed transition block, the grouped table built by
Transition::parse maps each source state to exactly the set of destinations
appearing in a from-to pair of the block: a destination is recorded under a
from state precisely when the pair occurs in the block's pair list (so
duplicates collapse into the single sorted set entry without error), and
every destination set is kept strictly sorted in the lexicographic
identifier order. -/
theorem c1_transition_grouping (e : String) (inner blk rest : List TokTree)
    (prs : List TransitionPair)
    (hprs : parseTerminated TransitionPair.parse inner = Except.ok prs) :
    Transition.parse
        (TokTree.ident e :: TokTree.group Delim.bracket inner
          :: TokTree.group Delim.brace blk :: rest)
      = Except.ok (Transition.mk e (groupPairs prs) blk, rest)
    ∧ (∀ f t, memTable (groupPairs prs) f t ↔ TransitionPair.mk f t ∈ prs)
    ∧ (∀ f tos, lookupTable (groupPairs prs) f = some tos → List.Sorted identLt tos) := by
  refine ⟨?_, fun f t => memTable_groupPairs f t prs,
    fun f tos h => sorted_lookup_groupPairs prs f tos h⟩
  simp [Transition.parse, parseIdent, parseGroup, hprs]

/-- C1 witness: the grouping facts evaluated on the concrete block
EVENT1 with pairs S1 to S2, S1 to S3 and a duplicate S1 to S2. -/
theorem c1_transition_grouping_witness :
    Transition.parse
        (TokTree.ident "EVENT1"
          :: TokTree.group Delim.bracket
               [TokTree.ident "S1", TokTree.fatArrow, TokTree.ident "S2", TokTree.comma,
                TokTree.ident "S1", TokTree.fatArrow, TokTree.ident "S3", TokTree.comma,
                TokTree.ident "S1", TokTree.fatArrow, TokTree.ident "S2"]
          :: TokTree.group Delim.brace [] :: [])
      = Except.ok
          (Transition.mk "EVENT1"
            (groupPairs
              [TransitionPair.mk "S1" "S2", TransitionPair.mk "S1" "S3",
               TransitionPair.mk "S1" "S2"])
            [], [])
    ∧ (∀ f t,
        memTable
            (groupPairs
              [TransitionPair.mk "S1" "S2", TransitionPair.mk "S1" "S3",
               TransitionPair.mk "S1" "S2"]) f t
          ↔ TransitionPair.mk f t
              ∈ [TransitionPair.mk "S1" "S2", TransitionPair.mk "S1" "S3",
                 TransitionPair.mk "S1" "S2"])
    ∧ (∀ f tos,
        lookupTable
            (groupPairs
              [TransitionPair.mk "S1" "S2", TransitionPair.mk "S1" "S3",
               TransitionPair.mk "S1" "S2"]) f = some tos →
          List.Sorted identLt tos) :=
  c1_transition_grouping "EVENT1"
    [TokTree.ident "S1", TokTree.fatArrow, TokTree.ident "S2", TokTree.comma,
     TokTree.ident "S1", TokTree.fatArrow, TokTree.ident "S3", TokTree.comma,
     TokTree.ident "S1", TokTree.fatArrow, TokTree.ident "S2"]
    [] []
    [TransitionPair.mk "S1" "S2", TransitionPair.mk "S1" "S3", TransitionPair.mk "S1" "S2"]
    rfl

/-- C2: for every from state recorded in a transition's grouped table (one
per event and from-state pair with at least one recorded transition), the
generated AfterExit resolution enum's variants are exactly that entry's
recorded destination list, which is strictly sorted in identifier order;
and the generated dispatch state arm for that entry carries one resolution
arm per variant, in the same order, each arm assigning its own variant as
the new current state and invoking the matching entry hook. -/
theorem c2_resolution_enum_matches_dispatch (e : String) (blk : List TokTree)
    (prs : List TransitionPair) (f : String) (tos : List String)
    (hmem : (f, tos) ∈ groupPairs prs) :
    mkAfterExitEnums f tos
        ∈ (Transition.toTokens (Transition.mk e (groupPairs prs) blk)).afterEnums
    ∧ (mkAfterExitEnums f tos).variants = tos
    ∧ List.Sorted identLt tos
    ∧ mkStateCase f tos ∈ (mkEventCase (Transition.mk e (groupPairs prs) blk)).stateCases
    ∧ (mkStateCase f tos).arms.map AfterExitCase.variant = tos
    ∧ ∀ a ∈ (mkStateCase f tos).arms,
        a.enumName = afterExitName f ∧ a.assignedState = a.variant
          ∧ a.entryCall = entryFnName f a.variant := by
  refine ⟨?_, rfl, ?_, ?_, ?_, ?_⟩
  · have hmap := List.mem_map_of_mem (fun p => mkAfterExitEnums p.1 p.2) hmem
    simpa [Transition.toTokens] using hmap
  · exact (tableWF_groupPairs prs).2 (f, tos) hmem
  · have hmap := List.mem_map_of_mem (fun p => mkStateCase p.1 p.2) hmem
    simpa [mkEventCase] using hmap
  · show ((tos.map fun t => mkAfterExitCase f t).map AfterExitCase.variant) = tos
    have hfun : (AfterExitCase.variant ∘ fun t => mkAfterExitCase f t) = id := rfl
    rw [List.map_map, hfun, List.map_id]
  · intro a ha
    simp only [mkStateCase, List.mem_map] at ha
    obtain ⟨t, _, rfl⟩ := ha
    exact ⟨rfl, rfl, rfl⟩

/-- C2 witness: the resolution enum and dispatch arm facts evaluated on the
grouped table of the pairs S1 to S2 and S1 to S3 under event EVENT1. -/
theorem c2_resolution_enum_matches_dispatch_witness :
    mkAfterExitEnums "S1" ["S2", "S3"]
        ∈ (Transition.toTokens
            (Transition.mk "EVENT1"
              (groupPairs [TransitionPair.mk "S1" "S2", TransitionPair.mk "S1" "S3"])
              [])).afterEnums
    ∧ (mkAfterExitEnums "S1" ["S2", "S3"]).variants = ["S2", "S3"]
    ∧ List.Sorted identLt ["S2", "S3"]
    ∧ mkStateCase "S1" ["S2", "S3"]
        ∈ (mkEventCase
            (Transition.mk "EVENT1"
              (groupPairs [TransitionPair.mk "S1" "S2", TransitionPair.mk "S1" "S3"])
              [])).stateCases
    ∧ (mkStateCase "S1" ["S2", "S3"]).arms.map AfterExitCase.variant = ["S2", "S3"]
    ∧ ∀ a ∈ (mkStateCase "S1" ["S2", "S3"]).arms,
        a.enumName = afterExitName "S1" ∧ a.assignedState = a.variant
          ∧ a.entryCall = entryFnName "S1" a.variant :=
  c2_resolution_enum_matches_dispatch "EVENT1" []
    [TransitionPair.mk "S1" "S2", TransitionPair.mk "S1" "S3"] "S1" ["S2", "S3"]
    (by decide)

/-- C3: the generated dispatch arm invokes the pre-transition hook first and
returns its failure before any state mutation; an exit-hook failure is
propagated unchanged with the current-state accessor reading exactly what it
read before the call; only on exit-hook success is the current state assigned
and the matching entry hook invoked, after which the arm reports success. -/
theorem c3_dispatch_hook_order_and_atomicity {C : Type} (ev : String)
    (pairs : List (String × List String))
    (pre : RtMachine C → Except String Unit)
    (exitH : RtMachine C → Except String String)
    (m : RtMachine C) :
    (∀ e, pre m = Except.error e →
        dispatchEvent ev pairs pre exitH m
          = some (Except.error e, m, [HookCall.pre (onEventName ev)]))
    ∧ (∀ e tos, pre m = Except.ok () →
        lookupTable pairs m.current_state = some tos →
        exitH m = Except.error e →
        dispatchEvent ev pairs pre exitH m
          = some (Except.error e, m,
              [HookCall.pre (onEventName ev),
               HookCall.exitHook (exitFnName m.current_state)]))
    ∧ (∀ d tos, pre m = Except.ok () →
        lookupTable pairs m.current_state = some tos →
        exitH m = Except.ok d → d ∈ tos →
        dispatchEvent ev pairs pre exitH m
          = some (Except.ok true, RtMachine.mk m.context d,
              [HookCall.pre (onEventName ev),
               HookCall.exitHook (exitFnName m.current_state),
               HookCall.entry (entryFnName m.current_state d)])
          ∧ stateAccessor (RtMachine.mk m.context d) = d) := by
  refine ⟨?_, ?_, ?_⟩
  · intro e hpre
    simp [dispatchEvent, hpre]
  · intro e tos hpre hlook hexit
    simp [dispatchEvent, hpre, hlook, hexit]
  · intro d tos hpre hlook hexit hd
    refine ⟨?_, rfl⟩
    simp [dispatchEvent, hpre, hlook, hexit, hd]

/-- C3 witness: the three dispatch outcomes evaluated on a concrete machine
in state A with the single recorded destination B. -/
theorem c3_dispatch_hook_order_and_atomicity_witness :
    dispatchEvent (C := Nat) "E" [("A", ["B"])]
        (fun _ => Except.error "pre boom") (fun _ => Except.ok "B")
        (RtMachine.mk 7 "A")
      = some (Except.error "pre boom", RtMachine.mk 7 "A", [HookCall.pre (onEventName "E")])
    ∧ dispatchEvent (C := Nat) "E" [("A", ["B"])]
        (fun _ => Except.ok ()) (fun _ => Except.error "exit boom")
        (RtMachine.mk 7 "A")
      = some (Except.error "exit boom", RtMachine.mk 7 "A",
          [HookCall.pre (onEventName "E"), HookCall.exitHook (exitFnName "A")])
    ∧ dispatchEvent (C := Nat) "E" [("A", ["B"])]
        (fun _ => Except.ok ()) (fun _ => Except.ok "B")
        (RtMachine.mk 7 "A")
      = some (Except.ok true, RtMachine.mk 7 "B",
          [HookCall.pre (onEventName "E"), HookCall.exitHook (exitFnName "A"),
           HookCall.entry (entryFnName "A" "B")]) :=
  ⟨(c3_dispatch_hook_order_and_atomicity "E" [("A", ["B"])]
      (fun _ => Except.error "pre boom") (fun _ => Except.ok "B")
      (RtMachine.mk 7 "A")).1 "pre boom" rfl,
   (c3_dispatch_hook_order_and_atomicity "E" [("A", ["B"])]
      (fun _ => Except.ok ()) (fun _ => Except.error "exit boom")
      (RtMachine.mk 7 "A")).2.1 "exit boom" ["B"] rfl rfl rfl,
   ((c3_dispatch_hook_order_and_atomicity "E" [("A", ["B"])]
      (fun _ => Except.ok ()) (fun _ => Except.ok "B")
      (RtMachine.mk 7 "A")).2.2 "B" ["B"] rfl rfl rfl (by decide)).1⟩

/-- C9: the generated dispatch arms mutate only the current-state field: on
every outcome of the dispatch procedure the machine's context field is the
one it held before the call. -/
theorem c9_dispatch_preserves_context {C : Type} (ev : String)
    (pairs : List (String × List String))
    (pre : RtMachine C → Except String Unit)
    (exitH : RtMachine C → Except String String)
    (m : RtMachine C) (r : Except String Bool) (m2 : RtMachine C)
    (trace : List HookCall)
    (h : dispatchEvent ev pairs pre exitH m = some (r, m2, trace)) :
    m2.context = m.context := by
  cases hpre : pre m with
  | error e =>
    simp only [dispatchEvent, hpre, Option.some.injEq, Prod.mk.injEq] at h
    obtain ⟨-, h2, -⟩ := h
    rw [← h2]
  | ok u =>
    cases hlook : lookupTable pairs m.current_state with
    | none =>
      simp only [dispatchEvent, hpre, hlook] at h
      cases h
    | some tos =>
      cases hexit : exitH m with
      | error e =>
        simp only [dispatchEvent, hpre, hlook, hexit, Option.some.injEq,
          Prod.mk.injEq] at h
        obtain ⟨-, h2, -⟩ := h
        rw [← h2]
      | ok d =>
        by_cases hd : d ∈ tos
        · simp only [dispatchEvent, hpre, hlook, hexit] at h
          rw [if_pos hd] at h
          simp only [Option.some.injEq, Prod.mk.injEq] at h
          obtain ⟨-, h2, -⟩ := h
          rw [← h2]
        · simp only [dispatchEvent, hpre, hlook, hexit] at h
          rw [if_neg hd] at h
          simp at h

/-- C9 witness: context preservation evaluated on a successful concrete
dispatch that moves state A to state B with context 7. -/
theorem c9_dispatch_preserves_context_witness :
    (RtMachine.mk (C := Nat) 7 "B").context = (RtMachine.mk (C := Nat) 7 "A").context :=
  c9_dispatch_preserves_context "E" [("A", ["B"])]
    (fun _ => Except.ok ()) (fun _ => Except.ok "B")
    (RtMachine.mk 7 "A") (Except.ok true) (RtMachine.mk 7 "B")
    [HookCall.pre (onEventName "E"), HookCall.exitHook (exitFnName "A"),
     HookCall.entry (entryFnName "A" "B")]
    rfl

/-- C6: name derivation is deterministic and follows the fixed rules; the
derived names are pure functions of their seed identifiers alone, so they
cannot depend on declaration order elsewhere in the specification. The first
four conjuncts state the concatenation rules, the last four evaluate the
embedded heck transformations on the concrete seeds the specification
quotes. -/
theorem c6_name_derivation_stable (f t e : String) :
    entryFnName f t = "entry_" ++ snakeCase t ++ "_from_" ++ snakeCase f
    ∧ exitFnName f = "exit_" ++ snakeCase f
    ∧ afterExitName f = "AfterExit" ++ camelCase f
    ∧ onEventName e = "on_" ++ snakeCase e
    ∧ entryFnName "S1" "S2" = "entry_s2_from_s1"
    ∧ afterExitName "S1" = "AfterExitS1"
    ∧ exitFnName "S1" = "exit_s1"
    ∧ onEventName "EVENT1" = "on_event1" :=
  ⟨rfl, rfl, rfl, rfl, rfl, rfl, rfl, rfl⟩

/-- C7: the parse-then-generate pipeline is a pure function of the input
token stream, so two runs on byte-identical inputs emit identical output. -/
theorem c7_generation_deterministic (ts1 ts2 : List TokTree) (h : ts1 = ts2) :
    fsm ts1 = fsm ts2 := by
  rw [h]

/-- C7 witness: the two-run equality applied to the concrete sample
specification. -/
theorem c7_generation_deterministic_witness : fsm sampleSpec = fsm sampleSpec :=
  c7_generation_deterministic sampleSpec sampleSpec rfl

/-- C10: the generated output does not depend on the contents of the
per-transition brace block: a transition whose block is replaced parses to
the same result up to the stored block, and the generators read only the
event name and the grouped pairs, never the block. -/
theorem c10_code_block_not_emitted (e : String) (inner b1 b2 rest : List TokTree)
    (tr : Transition) (rem : List TokTree) :
    (Transition.parse
        (TokTree.ident e :: TokTree.group Delim.bracket inner
          :: TokTree.group Delim.brace b1 :: rest) = Except.ok (tr, rem) →
      Transition.parse
        (TokTree.ident e :: TokTree.group Delim.bracket inner
          :: TokTree.group Delim.brace b2 :: rest)
        = Except.ok (Transition.mk tr.event_name tr.pairs b2, rem))
    ∧ (∀ t1 t2 : Transition, t1.event_name = t2.event_name → t1.pairs = t2.pairs →
        Transition.toTokens t1 = Transition.toTokens t2 ∧ mkEventCase t1 = mkEventCase t2) := by
  constructor
  · have hcompute : ∀ b : List TokTree,
        Transition.parse
          (TokTree.ident e :: TokTree.group Delim.bracket inner
            :: TokTree.group Delim.brace b :: rest)
          = match parseTerminated TransitionPair.parse inner with
            | Except.error er => Except.error er
            | Except.ok prs => Except.ok (Transition.mk e (groupPairs prs) b, rest) := by
      intro b
      cases hprs : parseTerminated TransitionPair.parse inner with
      | error er => simp [Transition.parse, parseIdent, parseGroup, hprs]
      | ok prs => simp [Transition.parse, parseIdent, parseGroup, hprs]
    intro h
    rw [hcompute b1] at h
    rw [hcompute b2]
    cases hprs : parseTerminated TransitionPair.parse inner with
    | error er =>
      simp only [hprs] at h
      simp at h
    | ok prs =>
      simp only [hprs] at h ⊢
      simp only [Except.ok.injEq, Prod.mk.injEq] at h
      obtain ⟨htr, hrem⟩ := h
      rw [← htr, ← hrem]
  · intro t1 t2 h1 h2
    obtain ⟨en1, ps1, bl1⟩ := t1
    obtain ⟨en2, ps2, bl2⟩ := t2
    simp only at h1 h2
    subst h1
    subst h2
    exact ⟨rfl, rfl⟩

/-- C10 witness: replacing a nonempty code block by an empty one leaves the
parse result identical apart from the stored block, and the generated module
and dispatch arm identical. -/
theorem c10_code_block_not_emitted_witness :
    Transition.parse
        (TokTree.ident "E"
          :: TokTree.group Delim.bracket
               [TokTree.ident "A", TokTree.fatArrow, TokTree.ident "B"]
          :: TokTree.group Delim.brace [] :: [])
      = Except.ok
          (Transition.mk
            (Transition.mk "E" (groupPairs [TransitionPair.mk "A" "B"])
              [TokTree.ident "say"]).event_name
            (Transition.mk "E" (groupPairs [TransitionPair.mk "A" "B"])
              [TokTree.ident "say"]).pairs
            [], [])
    ∧ Transition.toTokens
          (Transition.mk "E" (groupPairs [TransitionPair.mk "A" "B"])
            [TokTree.ident "say"])
        = Transition.toTokens
            (Transition.mk "E" (groupPairs [TransitionPair.mk "A" "B"]) [])
      ∧ mkEventCase
          (Transition.mk "E" (groupPairs [TransitionPair.mk "A" "B"])
            [TokTree.ident "say"])
        = mkEventCase (Transition.mk "E" (groupPairs [TransitionPair.mk "A" "B"]) []) :=
  ⟨(c10_code_block_not_emitted "E"
      [TokTree.ident "A", TokTree.fatArrow, TokTree.ident "B"]
      [TokTree.ident "say"] [] []
      (Transition.mk "E" (groupPairs [TransitionPair.mk "A" "B"]) [TokTree.ident "say"])
      []).1 rfl,
   (c10_code_block_not_emitted "E"
      [TokTree.ident "A", TokTree.fatArrow, TokTree.ident "B"]
      [TokTree.ident "say"] [] []
      (Transition.mk "E" (groupPairs [TransitionPair.mk "A" "B"]) [TokTree.ident "say"])
      []).2
     (Transition.mk "E" (groupPairs [TransitionPair.mk "A" "B"]) [TokTree.ident "say"])
     (Transition.mk "E" (groupPairs [TransitionPair.mk "A" "B"]) []) rfl rfl⟩

/-- C4 evidence: the sample specification parses, yet the generated
constructor initializes current_state with the default-value expression of
the State type, which is a different expression from the INIT_STATE constant
of any declared initial state (the crate's own machine test expects
INIT_STATE, and the Machine parser accepts no InitialState section at all);
only the context half of the claim holds, the context being
default-initialized. -/
theorem c4_constructor_defaults_current_state :
    Except.map (fun m => (Machine.toTokens m).initCurrentState) (Machine.parse sampleSpec)
      = Except.ok CurrentStateInit.defaultExpr
    ∧ Except.map (fun m => (Machine.toTokens m).contextInitDefault) (Machine.parse sampleSpec)
      = Except.ok true
    ∧ ∀ s, CurrentStateInit.defaultExpr ≠ CurrentStateInit.initStateConst s :=
  ⟨rfl, rfl, fun _ h => CurrentStateInit.noConfusion h⟩

/-- C5 evidence: the specification written in the claimed order with an
InitialState section between States and Events is rejected (the Events
parser meets the identifier InitialState), while the same specification
without that section parses; the resulting Machine holds only context,
states, events and transitions. -/
theorem c5_initial_state_section_rejected :
    Machine.parse sampleSpecWithInitialState = Except.error "expected Events block"
    ∧ Machine.parse sampleSpec
        = Except.ok
            (Machine.mk (MachineContext.mk "FSM") (Events.mk ["Turn"])
              (States.mk ["Open", "Close"])
              (Transitions.mk
                [Transition.mk "Turn"
                  (groupPairs
                    [TransitionPair.mk "Open" "Close", TransitionPair.mk "Close" "Open",
                     TransitionPair.mk "Close" "Close"])
                  []])) :=
  ⟨rfl, rfl⟩

/-- C8 counterexample: the Context section parser accepts a leading
identifier that is not the Context keyword, returning the parsed context
type instead of a syntax error. -/
theorem c8_counterexample_context_keyword_unchecked :
    MachineContext.parse
        [TokTree.ident "NotContext", TokTree.eqTok, TokTree.ident "Foo", TokTree.semi]
      = Except.ok (MachineContext.mk "Foo", [])
    ∧ "NotContext" ≠ "Context" :=
  ⟨rfl, by decide⟩

/-- C8 amended: the States, Events and InitialState parsers fail whenever
their leading identifier is not their keyword, but the Context parser
performs no keyword check: its outcome is the same for every leading
identifier. -/
theorem c8_keyword_checks_amended (s : String) (ts : List TokTree) :
    (s ≠ "States" →
      States.parse (TokTree.ident s :: ts) = Except.error "expected States block")
    ∧ (s ≠ "Events" →
      Events.parse (TokTree.ident s :: ts) = Except.error "expected Events block")
    ∧ (s ≠ "InitialState" →
      InitialState.parse (TokTree.ident s :: ts)
        = Except.error "expected InitialState section")
    ∧ (∀ s2, MachineContext.parse (TokTree.ident s :: ts)
        = MachineContext.parse (TokTree.ident s2 :: ts)) := by
  refine ⟨?_, ?_, ?_, ?_⟩
  · intro h
    simp [States.parse, parseIdent, h]
  · intro h
    simp [Events.parse, parseIdent, h]
  · intro h
    simp [InitialState.parse, parseIdent, h]
  · intro s2
    simp [MachineContext.parse, parseIdent]

/-- C8 witness: the keyword checks evaluated on the concrete identifier Nope,
and the Context parser's indifference between Nope and Context. -/
theorem c8_keyword_checks_amended_witness :
    States.parse [TokTree.ident "Nope"] = Except.error "expected States block"
    ∧ Events.parse [TokTree.ident "Nope"] = Except.error "expected Events block"
    ∧ InitialState.parse [TokTree.ident "Nope"]
        = Except.error "expected InitialState section"
    ∧ MachineContext.parse [TokTree.ident "Nope"]
        = MachineContext.parse [TokTree.ident "Context"] :=
  ⟨(c8_keyword_checks_amended "Nope" []).1 (by decide),
   (c8_keyword_checks_amended "Nope" []).2.1 (by decide),
   (c8_keyword_checks_amended "Nope" []).2.2.1 (by decide),
   (c8_keyword_checks_amended "Nope" []).2.2.2 "Context"⟩

end Fsm
